import Mathlib

/-!
Verification of the workload orchestration and dynamic ingress-routing
subsystem of the wash runtime.

The development shallowly embeds the core data model and operations:
the dynamic HTTP router (route table, register, dispatch with
segment-aligned longest-prefix match), the component instance pool
(checkout/checkin with invocation-count recycling), and the workload
orchestrator (workload_start / workload_stop over a host state with a
live-workload map, pools, and the route table).

The core implementation sources are not available in this tree (only the
integration tests and the build script are), so every definition here is
modelled from the specification document, as flagged in the doc comments.
-/

namespace Wash

/-! ## Dynamic HTTP Router -/

/-- Modelled from the spec: a RouteEntry is a (host, path-prefix) binding to
a target pool reference plus the owning workload id.  The target pool is
identified by a numeric pool id. -/
structure RouteEntry where
  host : String
  path : String
  target : Nat
  workloadId : String
deriving DecidableEq, Repr

/-- Modelled from the spec: router error taxonomy (`RouteConflict` on a
duplicate exact (host, path) registration, `RouteMissing` when
deregistering an absent entry). -/
inductive RouterError where
  | RouteConflict
  | RouteMissing
deriving DecidableEq, Repr

/-- Modelled from the spec: segment-aligned prefix match on the character
lists of the registered path and the request path.  The registered path
must be a prefix of the request path, and the match boundary must be
aligned: either the request path ends exactly there, or the next request
character is a slash (so "/api" matches "/api" and "/api/..." but not
"/apiextra"). -/
def pathMatchesL : List Char → List Char → Bool
  | [], [] => true
  | [], c :: _ => c == '/'
  | _ :: _, [] => false
  | a :: as, b :: bs => a == b && pathMatchesL as bs

/-- Modelled from the spec: segment-aligned prefix match on strings. -/
def pathMatches (p rp : String) : Bool :=
  pathMatchesL p.data rp.data

/-- An entry matches a request when the host matches exactly and the
registered path is a segment-aligned prefix of the request path. -/
def matchesEntry (e : RouteEntry) (h rp : String) : Bool :=
  e.host == h && pathMatches e.path rp

/-- Lookup of an exact (host, path) entry in the table. -/
def entryFor (t : List RouteEntry) (h p : String) : Option RouteEntry :=
  t.find? (fun e => e.host == h && e.path == p)

/-- Modelled from the spec: `register` inserts a new entry, failing with
`RouteConflict` when an entry for the identical (host, path) pair already
exists. -/
def register (t : List RouteEntry) (h p : String) (tgt : Nat) (wid : String) :
    Except RouterError (List RouteEntry) :=
  match entryFor t h p with
  | some _ => .error .RouteConflict
  | none => .ok (t ++ [⟨h, p, tgt, wid⟩])

/-- Modelled from the spec: `deregister` removes the exact (host, path)
entry, reporting `RouteMissing` when it is absent. -/
def deregister (t : List RouteEntry) (h p : String) :
    Except RouterError (List RouteEntry) :=
  match entryFor t h p with
  | some _ => .ok (t.filter (fun e => !(e.host == h && e.path == p)))
  | none => .error .RouteMissing

/-- Among a list of route entries, select the one with the longest path
string (ties cannot occur among same-host matches since `register` forbids
duplicate exact pairs). -/
def pickLongest : List RouteEntry → Option RouteEntry
  | [] => none
  | e :: es =>
    match pickLongest es with
    | none => some e
    | some b => if b.path.length > e.path.length then some b else some e

/-- Modelled from the spec: `dispatch` filters the table to the entries
whose host matches exactly and whose path is a segment-aligned prefix of
the request path, then selects the entry with the longest matching path;
`none` models `NoMatch`. -/
def dispatch (t : List RouteEntry) (h rp : String) : Option Nat :=
  (pickLongest (t.filter (fun e => matchesEntry e h rp))).map (·.target)

/-- Modelled from the spec: the ingress adapter translates a `NoMatch`
dispatch result into HTTP 404, a client error, never a server error. -/
def statusForNoMatch : Nat := 404

/-- A status code is a client error when it lies in the 4xx range. -/
def isClientError (s : Nat) : Bool :=
  400 ≤ s && s < 500

/-! ### Router lemmas -/

theorem pickLongest_mem {l : List RouteEntry} {b : RouteEntry}
    (hb : pickLongest l = some b) : b ∈ l := by
  induction l with
  | nil => simp [pickLongest] at hb
  | cons e es ih =>
    simp only [pickLongest] at hb
    cases hpe : pickLongest es with
    | none =>
      rw [hpe] at hb
      simp at hb
      simp [hb]
    | some c =>
      rw [hpe] at hb
      by_cases hlen : c.path.length > e.path.length
      · simp [hlen] at hb
        rw [hb] at hpe
        exact List.mem_cons_of_mem e (ih hpe)
      · simp [hlen] at hb
        simp [hb]

theorem pickLongest_eq_of_longest {l : List RouteEntry} {e : RouteEntry}
    (hmem : e ∈ l)
    (hmax : ∀ e' ∈ l, e' = e ∨ e'.path.length < e.path.length) :
    pickLongest l = some e := by
  induction l with
  | nil => exact absurd hmem (List.not_mem_nil e)
  | cons a es ih =>
    rcases List.mem_cons.mp hmem with hea | hmem'
    · subst hea
      simp only [pickLongest]
      cases hpe : pickLongest es with
      | none => rfl
      | some b =>
        have hb : b ∈ es := pickLongest_mem hpe
        rcases hmax b (List.mem_cons_of_mem _ hb) with hbe | hlt
        · subst hbe; simp
        · have hnot : ¬ (b.path.length > e.path.length) :=
            Nat.not_lt.mpr (Nat.le_of_lt hlt)
          simp [hnot]
    · have ha : a = e ∨ a.path.length < e.path.length :=
        hmax a (List.mem_cons_self a es)
      have hrec : pickLongest es = some e :=
        ih hmem' (fun e' he' => hmax e' (List.mem_cons_of_mem _ he'))
      simp only [pickLongest, hrec]
      rcases ha with hae | hlt
      · subst hae; simp
      · simp [hlt]

/-- If an entry matches and every other matching entry for the same host is
strictly shorter, dispatch selects that entry's target. -/
theorem dispatch_eq_of_longest {t : List RouteEntry} {e : RouteEntry}
    {h rp : String}
    (hmem : e ∈ t) (hme : matchesEntry e h rp = true)
    (hmax : ∀ e' ∈ t, matchesEntry e' h rp = true →
      e' = e ∨ e'.path.length < e.path.length) :
    dispatch t h rp = some e.target := by
  have hfmem : e ∈ t.filter (fun e => matchesEntry e h rp) :=
    List.mem_filter.mpr ⟨hmem, hme⟩
  have hfmax : ∀ e' ∈ t.filter (fun e => matchesEntry e h rp),
      e' = e ∨ e'.path.length < e.path.length := by
    intro e' he'
    have := List.mem_filter.mp he'
    exact hmax e' this.1 this.2
  unfold dispatch
  rw [pickLongest_eq_of_longest hfmem hfmax]
  rfl

theorem pathMatchesL_self (l : List Char) : pathMatchesL l l = true := by
  induction l with
  | nil => rfl
  | cons a as ih => simp [pathMatchesL, ih]

theorem pathMatchesL_length_le {p rp : List Char}
    (h : pathMatchesL p rp = true) : p.length ≤ rp.length := by
  induction p generalizing rp with
  | nil => exact Nat.zero_le _
  | cons a as ih =>
    cases rp with
    | nil => simp [pathMatchesL] at h
    | cons b bs =>
      simp only [pathMatchesL, Bool.and_eq_true] at h
      simpa using Nat.succ_le_succ (ih h.2)

theorem pathMatchesL_eq_of_length {p rp : List Char}
    (h : pathMatchesL p rp = true) (hlen : p.length = rp.length) : p = rp := by
  induction p generalizing rp with
  | nil =>
    cases rp with
    | nil => rfl
    | cons b bs => simp at hlen
  | cons a as ih =>
    cases rp with
    | nil => simp at hlen
    | cons b bs =>
      simp only [pathMatchesL, Bool.and_eq_true, beq_iff_eq] at h
      simp only [List.length_cons, Nat.succ_inj'] at hlen
      rw [h.1, ih h.2 hlen]

theorem pathMatches_self (p : String) : pathMatches p p = true :=
  pathMatchesL_self p.data

theorem pathMatches_length_le {p rp : String}
    (h : pathMatches p rp = true) : p.length ≤ rp.length :=
  pathMatchesL_length_le h

theorem pathMatches_eq_of_length {p rp : String}
    (h : pathMatches p rp = true) (hlen : p.length = rp.length) : p = rp := by
  cases p with
  | mk dp =>
    cases rp with
    | mk drp =>
      exact congrArg String.mk (pathMatchesL_eq_of_length h hlen)

/-! ## Component Instance Pool -/

/-- Modelled from the spec: an Instance is one instantiated, ready-to-invoke
unit, carrying an identity and its invocation counter. -/
structure PoolInstance where
  iid : Nat
  counter : Nat
deriving DecidableEq, Repr

/-- Modelled from the spec: a Pool owns a bounded collection of instances
with a per-instance invocation counter.  `available` lists the instances
currently checked in; `nextId` generates fresh instance identities for
recycling replacements. -/
structure Pool where
  poolSize : Nat
  maxInvocations : Nat
  available : List PoolInstance
  nextId : Nat
deriving DecidableEq, Repr

/-- Modelled from the spec: a freshly created pool holds `poolSize`
pre-instantiated ready instances, each with a zero invocation counter. -/
def mkPool (size maxInv : Nat) : Pool :=
  ⟨size, maxInv, (List.range size).map (fun i => ⟨i, 0⟩), size⟩

/-- Modelled from the spec: `checkout` hands out an available instance,
or none when all instances are currently checked out. -/
def checkout (p : Pool) : Option (PoolInstance × Pool) :=
  match p.available with
  | [] => none
  | i :: rest => some (i, { p with available := rest })

/-- Modelled from the spec: `checkin` returns the instance to availability
and increments its invocation counter; when the incremented counter has
reached a non-zero `maxInvocations`, the instance is retired and replaced
by a freshly instantiated unit (zero counter, fresh identity), restoring
the pool's size; when `maxInvocations = 0` the instance is never
recycled. -/
def checkin (p : Pool) (inst : PoolInstance) : Pool :=
  let c := inst.counter + 1
  if p.maxInvocations ≠ 0 ∧ p.maxInvocations ≤ c then
    { p with available := p.available ++ [⟨p.nextId, 0⟩], nextId := p.nextId + 1 }
  else
    { p with available := p.available ++ [⟨inst.iid, c⟩] }

/-! ## Workload Orchestrator -/

/-- Modelled from the spec: a Component is the sandboxed payload plus its
pooling configuration; only the fields the orchestration logic inspects
are modelled (`pool_size`, `max_invocations`). -/
structure Component where
  poolSize : Nat
  maxInvocations : Nat
deriving DecidableEq, Repr

/-- Modelled from the spec: a HostInterfaceRequirement (WIT interface
descriptor): namespace, package, a set of interface names, and free-form
config carrying the routing key (`host`, `path`) for ingress
requirements. -/
structure WitInterface where
  ns : String
  pkg : String
  interfaces : List String
  config : List (String × String)
deriving DecidableEq, Repr

/-- Modelled from the spec: a Workload bundles one or more Components with
the declared host interface requirements. -/
structure Workload where
  components : List Component
  hostInterfaces : List WitInterface
deriving DecidableEq, Repr

/-- Modelled from the spec: a registered capability provider advertises a
namespace, package and interface set. -/
structure Provider where
  ns : String
  pkg : String
  interfaces : List String
deriving DecidableEq, Repr

/-- A pool record ties a pool id and owning workload id to the pool. -/
structure PoolRec where
  pid : Nat
  workloadId : String
  pool : Pool
deriving DecidableEq, Repr

/-- Modelled from the spec: the orchestrator's state — the live-workload
map (single source of truth for "is this id running"), the pools, and the
router table. -/
structure HostState where
  running : List (String × Workload)
  pools : List PoolRec
  routes : List RouteEntry
  nextPoolId : Nat
deriving DecidableEq, Repr

/-- The empty host state before any workload has started. -/
def initState : HostState := ⟨[], [], [], 0⟩

/-- Modelled from the spec: the orchestration error taxonomy. -/
inductive HostError where
  | DuplicateWorkload
  | NotFound
  | InvalidComponent
  | ResourceExceeded
  | UnresolvedInterface
  | RouteConflict
  | PoolTimeout
deriving DecidableEq, Repr

/-- Modelled from the spec: a requirement whose package identifies the HTTP
ingress capability resolves to a route registration rather than a direct
capability handle. -/
def isIngress (i : WitInterface) : Bool :=
  i.ns == "wasi" && i.pkg == "http"

/-- Lookup of a key in a free-form string config. -/
def lookupConfig (cfg : List (String × String)) (k : String) : Option String :=
  (cfg.find? (fun kv => kv.1 == k)).map (·.2)

/-- Modelled from the spec: a provider matches a requirement when its
namespace and package agree and its advertised interface set is a superset
of the requirement's interface set. -/
def providerMatches (p : Provider) (i : WitInterface) : Bool :=
  p.ns == i.ns && p.pkg == i.pkg &&
    i.interfaces.all (fun x => p.interfaces.contains x)

/-- Modelled from the spec: the resolver walks the declared requirements;
an ingress requirement yields a (host, path) routing key taken from its
config (a missing path key yields the empty, host-only prefix); any other
requirement must match some registered provider, else resolution fails
with `UnresolvedInterface`. -/
def resolveInterfaces (providers : List Provider) :
    List WitInterface → Except HostError (List (String × String))
  | [] => .ok []
  | i :: rest =>
    if isIngress i then
      let h := (lookupConfig i.config "host").getD ""
      let p := (lookupConfig i.config "path").getD ""
      (resolveInterfaces providers rest).map (fun rs => (h, p) :: rs)
    else if providers.any (fun pr => providerMatches pr i) then
      resolveInterfaces providers rest
    else
      .error .UnresolvedInterface

/-- Register every resolved routing key against the route table in order,
failing with `RouteConflict` on a duplicate exact (host, path) pair. -/
def registerAll (tgt : Nat) (wid : String) (t : List RouteEntry) :
    List (String × String) → Except HostError (List RouteEntry)
  | [] => .ok t
  | (h, p) :: rest =>
    match register t h p tgt wid with
    | .error _ => .error .RouteConflict
    | .ok t' => registerAll tgt wid t' rest

/-- Create one ready pool per declared component, with consecutive pool
ids starting at `base`. -/
def mkPools : List Component → String → Nat → List PoolRec
  | [], _, _ => []
  | c :: cs, wid, base =>
    ⟨base, wid, mkPool c.poolSize c.maxInvocations⟩ :: mkPools cs wid (base + 1)

/-- Modelled from the spec: `workload_start` rejects a duplicate id,
creates and warms one pool per component, resolves every declared
interface requirement (ingress requirements become route registrations
targeting the workload's first pool), and commits the new running
workload, pools, and routes only when every step succeeded.  Any failure
returns the original state (all-or-nothing rollback: no pool or route
created so far remains). -/
def workload_start (providers : List Provider) (s : HostState)
    (wid : String) (w : Workload) : Except HostError Unit × HostState :=
  if s.running.any (fun kv => kv.1 == wid) then
    (.error .DuplicateWorkload, s)
  else if w.components.isEmpty then
    (.error .InvalidComponent, s)
  else
    match resolveInterfaces providers w.hostInterfaces with
    | .error e => (.error e, s)
    | .ok keys =>
      match registerAll s.nextPoolId wid s.routes keys with
      | .error e => (.error e, s)
      | .ok routes' =>
        (.ok (),
          { running := (wid, w) :: s.running,
            pools := s.pools ++ mkPools w.components wid s.nextPoolId,
            routes := routes',
            nextPoolId := s.nextPoolId + w.components.length })

/-- Modelled from the spec: `workload_stop` fails with `NotFound` when the
id is not recorded as running, with no observable side effect; otherwise
it removes the workload's routes first, then tears down its pools and
removes it from the live map. -/
def workload_stop (s : HostState) (wid : String) :
    Except HostError Unit × HostState :=
  if s.running.any (fun kv => kv.1 == wid) then
    (.ok (),
      { running := s.running.filter (fun kv => !(kv.1 == wid)),
        pools := s.pools.filter (fun pr => !(pr.workloadId == wid)),
        routes := s.routes.filter (fun e => !(e.workloadId == wid)),
        nextPoolId := s.nextPoolId })
  else
    (.error .NotFound, s)

/-- An orchestration operation: a start or stop request. -/
inductive Op where
  | startOp (wid : String) (w : Workload)
  | stopOp (wid : String)
deriving DecidableEq, Repr

/-- Apply one operation to the host state, keeping the resulting state. -/
def step (providers : List Provider) (s : HostState) : Op → HostState
  | .startOp wid w => (workload_start providers s wid w).2
  | .stopOp wid => (workload_stop s wid).2

/-- Run a sequence of start/stop operations from a state. -/
def runOps (providers : List Provider) (s : HostState) (ops : List Op) :
    HostState :=
  ops.foldl (step providers) s

/-- The router/pool lockstep invariant: every live route entry references a
pool record that exists, belongs to the route's workload, is recorded as
running, and is fully ready (all `poolSize` instances available). -/
def routeInv (s : HostState) : Prop :=
  ∀ e ∈ s.routes, ∃ pr ∈ s.pools,
    pr.pid = e.target ∧ pr.workloadId = e.workloadId ∧
    (∃ w, (e.workloadId, w) ∈ s.running) ∧
    pr.pool.available.length = pr.pool.poolSize

/-! ## Claim theorems: router -/

/-- C8: dispatch matches a registered path prefix only on segment-aligned
boundaries — "/api" matches "/api" and every "/api/..." but not
"/apiextra" — and among all boundary-aligned matching prefixes for the
exactly-matching host, the entry with the longest matching path string is
selected. -/
theorem c8_segment_aligned_longest_match :
    (pathMatches "/api" "/api" = true) ∧
    (∀ rest : String, pathMatches "/api" ("/api/" ++ rest) = true) ∧
    (pathMatches "/api" "/apiextra" = false) ∧
    (∀ (t : List RouteEntry) (h rp : String) (e : RouteEntry),
      e ∈ t → e.host = h → pathMatches e.path rp = true →
      (∀ e' ∈ t, e'.host = h → pathMatches e'.path rp = true →
        e' = e ∨ e'.path.length < e.path.length) →
      dispatch t h rp = some e.target) := by
  refine ⟨by decide, ?_, by decide, ?_⟩
  · intro rest
    show pathMatchesL "/api".data ("/api/" ++ rest).data = true
    rw [String.data_append]
    show pathMatchesL ['/', 'a', 'p', 'i']
      (['/', 'a', 'p', 'i', '/'] ++ rest.data) = true
    simp [pathMatchesL]
  · intro t h rp e hmem hhost hpm hmax
    apply dispatch_eq_of_longest hmem
    · simp [matchesEntry, hhost, hpm]
    · intro e' he' hm'
      simp only [matchesEntry, Bool.and_eq_true, beq_iff_eq] at hm'
      exact hmax e' he' hm'.1 hm'.2

theorem c8_segment_aligned_longest_match_witness :
    dispatch [⟨"localhost", "/api", 1, "w1"⟩, ⟨"localhost", "/api/v2", 2, "w2"⟩]
      "localhost" "/api/v2/users" = some 2 :=
  c8_segment_aligned_longest_match.2.2.2
    [⟨"localhost", "/api", 1, "w1"⟩, ⟨"localhost", "/api/v2", 2, "w2"⟩]
    "localhost" "/api/v2/users" ⟨"localhost", "/api/v2", 2, "w2"⟩
    (by simp) (by rfl) (by decide) (by decide)

/-- C1: registering two entries under the same host where one path is a
proper prefix of the other succeeds, a request matched by both entries
dispatches to the longer entry's target, and a request matched only by
the shorter entry dispatches to the shorter entry's target. -/
theorem c1_longest_prefix_pair (h p1 p2 : String) (t1 t2 : Nat)
    (w1 w2 : String) (rp rq : String)
    (_hpfx : p1.data.isPrefixOf p2.data = true)
    (hlen : p1.length < p2.length)
    (_hm1 : pathMatches p1 rp = true) (hm2 : pathMatches p2 rp = true)
    (hq1 : pathMatches p1 rq = true) (hq2 : pathMatches p2 rq = false) :
    register [] h p1 t1 w1 = .ok [⟨h, p1, t1, w1⟩] ∧
    register [⟨h, p1, t1, w1⟩] h p2 t2 w2 =
      .ok [⟨h, p1, t1, w1⟩, ⟨h, p2, t2, w2⟩] ∧
    dispatch [⟨h, p1, t1, w1⟩, ⟨h, p2, t2, w2⟩] h rp = some t2 ∧
    dispatch [⟨h, p1, t1, w1⟩, ⟨h, p2, t2, w2⟩] h rq = some t1 := by
  have hne : p1 ≠ p2 := by
    intro he
    rw [he] at hlen
    exact Nat.lt_irrefl _ hlen
  have hne' : (p1 == p2) = false := beq_eq_false_iff_ne.mpr hne
  refine ⟨rfl, ?_, ?_, ?_⟩
  · simp [register, entryFor, List.find?, hne']
  · apply dispatch_eq_of_longest (e := ⟨h, p2, t2, w2⟩)
    · simp
    · simp [matchesEntry, hm2]
    · intro e' he' hm'
      rcases List.mem_cons.mp he' with h1 | h2
      · subst h1
        right
        exact hlen
      · left
        simpa using h2
  · apply dispatch_eq_of_longest (e := ⟨h, p1, t1, w1⟩)
    · simp
    · simp [matchesEntry, hq1]
    · intro e' he' hm'
      rcases List.mem_cons.mp he' with h1 | h2
      · left
        exact h1
      · exfalso
        have he2 : e' = (⟨h, p2, t2, w2⟩ : RouteEntry) := by simpa using h2
        rw [he2] at hm'
        simp [matchesEntry, hq2] at hm'

theorem c1_longest_prefix_pair_witness :
    dispatch [⟨"localhost", "/api", 1, "wA"⟩, ⟨"localhost", "/api/v2", 2, "wB"⟩]
      "localhost" "/api/v2/users" = some 2 ∧
    dispatch [⟨"localhost", "/api", 1, "wA"⟩, ⟨"localhost", "/api/v2", 2, "wB"⟩]
      "localhost" "/api/users" = some 1 :=
  have h := c1_longest_prefix_pair "localhost" "/api" "/api/v2" 1 2 "wA" "wB"
    "/api/v2/users" "/api/users" (by decide) (by decide) (by decide)
    (by decide) (by decide) (by decide)
  ⟨h.2.2.1, h.2.2.2⟩

/-- C4: dispatching a request whose host/path matches no registered entry
returns `NoMatch` (modelled as `none`) — in particular the empty table
returns `NoMatch` for "/" — and the ingress adapter translates `NoMatch`
into a client-error (4xx) response, never a server error. -/
theorem c4_no_match_client_error :
    dispatch [] "localhost" "/" = none ∧
    (∀ (t : List RouteEntry) (h rp : String),
      (∀ e ∈ t, matchesEntry e h rp = false) → dispatch t h rp = none) ∧
    isClientError statusForNoMatch = true ∧
    statusForNoMatch < 500 := by
  refine ⟨rfl, ?_, by decide, by decide⟩
  intro t h rp hnone
  have hfil : t.filter (fun e => matchesEntry e h rp) = [] := by
    rw [List.filter_eq_nil_iff]
    intro e he
    simp [hnone e he]
  unfold dispatch
  rw [hfil]
  rfl

theorem c4_no_match_client_error_witness :
    dispatch [⟨"localhost", "/api", 1, "w1"⟩] "localhost" "/other" = none :=
  c4_no_match_client_error.2.1 [⟨"localhost", "/api", 1, "w1"⟩]
    "localhost" "/other" (by decide)

/-- C5: a second `register` with a (host, path) pair identical to an
already-registered entry fails with `RouteConflict`, and the first
registration's target remains authoritative: dispatching the registered
path on the unchanged table still selects the first target. -/
theorem c5_route_conflict_first_wins (t : List RouteEntry) (h p : String)
    (t1 : Nat) (w1 : String) (t2 : Nat) (w2 : String) (t' : List RouteEntry)
    (hreg : register t h p t1 w1 = .ok t') :
    register t' h p t2 w2 = .error .RouteConflict ∧
    dispatch t' h p = some t1 := by
  have hnone : entryFor t h p = none := by
    unfold register at hreg
    cases hef : entryFor t h p with
    | none => rfl
    | some e => rw [hef] at hreg; exact absurd hreg (by simp)
  have ht' : t' = t ++ [⟨h, p, t1, w1⟩] := by
    unfold register at hreg
    rw [hnone] at hreg
    exact (Except.ok.inj hreg).symm
  have hnotin : ∀ e ∈ t, ¬(e.host == h && e.path == p) = true := by
    have := List.find?_eq_none.mp hnone
    simpa [entryFor] using this
  constructor
  · have hef' : entryFor t' h p = some ⟨h, p, t1, w1⟩ := by
      rw [ht']
      unfold entryFor
      rw [List.find?_append]
      unfold entryFor at hnone
      rw [hnone]
      simp [List.find?]
    unfold register
    rw [hef']
  · rw [ht']
    apply dispatch_eq_of_longest (e := ⟨h, p, t1, w1⟩)
    · simp
    · simp [matchesEntry, pathMatches_self]
    · intro e' he' hm'
      simp only [matchesEntry, Bool.and_eq_true, beq_iff_eq] at hm'
      rcases List.mem_append.mp he' with hin | hsing
      · have hle : e'.path.length ≤ p.length := pathMatches_length_le hm'.2
        rcases Nat.lt_or_ge e'.path.length p.length with hlt | hge
        · right
          exact hlt
        · exfalso
          have heq : e'.path = p :=
            pathMatches_eq_of_length hm'.2 (Nat.le_antisymm hle hge)
          exact hnotin e' hin (by simp [hm'.1, heq])
      · left
        simpa using hsing

theorem c5_route_conflict_first_wins_witness :
    register [⟨"h", "/a", 1, "w"⟩] "h" "/a" 2 "v" =
      .error .RouteConflict ∧
    dispatch [⟨"h", "/a", 1, "w"⟩] "h" "/a" = some 1 :=
  c5_route_conflict_first_wins [] "h" "/a" 1 "w" 2 "v"
    [⟨"h", "/a", 1, "w"⟩] (by rfl)

/-! ## Claim theorems: pool -/

theorem checkout_mem {p : Pool} {out : PoolInstance} {q : Pool}
    (h : checkout p = some (out, q)) : out ∈ p.available := by
  unfold checkout at h
  cases hav : p.available with
  | nil => rw [hav] at h; exact absurd h (by simp)
  | cons i rest =>
    rw [hav] at h
    simp only [Option.some.injEq, Prod.mk.injEq] at h
    rw [← h.1]
    simp [hav]

/-- C7: with a non-zero `maxInvocations`, checking in an instance whose
incremented invocation counter has reached the limit retires it — a fresh
replacement instance joins the pool, the retired instance's identity is
absent from the pool (so no subsequent checkout can return it), and the
pool's size is restored; with `maxInvocations = 0` the instance is never
recycled: it returns to the pool itself with its counter incremented. -/
theorem c7_invocation_recycling :
    (∀ (p : Pool) (inst : PoolInstance),
      p.maxInvocations ≠ 0 →
      p.maxInvocations ≤ inst.counter + 1 →
      inst.iid < p.nextId →
      (∀ i ∈ p.available, i.iid ≠ inst.iid) →
      ((⟨p.nextId, 0⟩ : PoolInstance) ∈ (checkin p inst).available ∧
       (∀ i ∈ (checkin p inst).available, i.iid ≠ inst.iid) ∧
       (∀ out q, checkout (checkin p inst) = some (out, q) →
         out.iid ≠ inst.iid) ∧
       (checkin p inst).available.length = p.available.length + 1 ∧
       (p.available.length + 1 = p.poolSize →
         (checkin p inst).available.length = p.poolSize))) ∧
    (∀ (p : Pool) (inst : PoolInstance),
      p.maxInvocations = 0 →
      checkin p inst =
        { p with available := p.available ++ [⟨inst.iid, inst.counter + 1⟩] }) := by
  constructor
  · intro p inst hnz hle hlt hout
    have hcheckin : checkin p inst =
        { p with available := p.available ++ [⟨p.nextId, 0⟩],
                 nextId := p.nextId + 1 } := by
      unfold checkin
      rw [if_pos ⟨hnz, hle⟩]
    have hmemOk : ∀ i ∈ (checkin p inst).available, i.iid ≠ inst.iid := by
      intro i hi
      rw [hcheckin] at hi
      rcases List.mem_append.mp hi with hold | hnew
      · exact hout i hold
      · have : i = (⟨p.nextId, 0⟩ : PoolInstance) := by simpa using hnew
        rw [this]
        exact fun hcontra => absurd (hcontra ▸ hlt) (Nat.lt_irrefl _)
    refine ⟨?_, hmemOk, ?_, ?_, ?_⟩
    · rw [hcheckin]
      simp
    · intro out q hco
      exact hmemOk out (checkout_mem hco)
    · rw [hcheckin]
      simp
    · intro hfull
      rw [hcheckin]
      simpa using hfull
  · intro p inst h0
    unfold checkin
    rw [if_neg]
    intro hcontra
    exact hcontra.1 h0

theorem c7_invocation_recycling_witness :
    ((⟨2, 0⟩ : PoolInstance) ∈
      (checkin ⟨2, 3, [⟨1, 0⟩], 2⟩ ⟨0, 2⟩).available) ∧
    ((checkin ⟨2, 3, [⟨1, 0⟩], 2⟩ ⟨0, 2⟩).available.length = 1 + 1) ∧
    (checkin ⟨2, 0, [⟨1, 0⟩], 2⟩ ⟨0, 2⟩ =
      ⟨2, 0, [⟨1, 0⟩, ⟨0, 3⟩], 2⟩) :=
  have h := c7_invocation_recycling
  have hA := h.1 ⟨2, 3, [⟨1, 0⟩], 2⟩ ⟨0, 2⟩ (by decide) (by decide)
    (by decide) (by decide)
  ⟨hA.1, hA.2.2.2.1, h.2 ⟨2, 0, [⟨1, 0⟩], 2⟩ ⟨0, 2⟩ rfl⟩

/-! ## Claim theorems: orchestrator -/

/-- C9: stopping a workload id not recorded as running returns `NotFound`
and leaves the whole host state — in particular the route table and every
pool — unchanged. -/
theorem c9_stop_unknown_not_found (s : HostState) (wid : String)
    (hunk : ∀ kv ∈ s.running, kv.1 ≠ wid) :
    workload_stop s wid = (.error .NotFound, s) ∧
    (workload_stop s wid).2.routes = s.routes ∧
    (workload_stop s wid).2.pools = s.pools := by
  have hany : s.running.any (fun kv => kv.1 == wid) = false := by
    rw [List.any_eq_false]
    intro kv hkv
    simp [hunk kv hkv]
  have hstop : workload_stop s wid = (.error .NotFound, s) := by
    unfold workload_stop
    rw [hany]
    simp
  exact ⟨hstop, by rw [hstop], by rw [hstop]⟩

theorem c9_stop_unknown_not_found_witness :
    workload_stop ⟨[("wa", ⟨[⟨1, 100⟩], []⟩)], [], [], 1⟩ "wb" =
      (.error .NotFound, ⟨[("wa", ⟨[⟨1, 100⟩], []⟩)], [], [], 1⟩) :=
  (c9_stop_unknown_not_found ⟨[("wa", ⟨[⟨1, 100⟩], []⟩)], [], [], 1⟩ "wb"
    (by decide)).1

/-- C3: whenever `workload_start` fails — for any error, including
`UnresolvedInterface` when a declared requirement matches no registered
provider — the resulting state is the original state: no pool created for
the workload remains allocated and no route registered for it remains in
the router table. -/
theorem c3_start_rollback (providers : List Provider) (s : HostState)
    (wid : String) (w : Workload) (err : HostError)
    (hfail : (workload_start providers s wid w).1 = .error err) :
    (workload_start providers s wid w).2 = s ∧
    ((∀ pr ∈ s.pools, pr.workloadId ≠ wid) →
      ∀ pr ∈ (workload_start providers s wid w).2.pools,
        pr.workloadId ≠ wid) ∧
    ((∀ e ∈ s.routes, e.workloadId ≠ wid) →
      ∀ e ∈ (workload_start providers s wid w).2.routes,
        e.workloadId ≠ wid) := by
  have hstate : (workload_start providers s wid w).2 = s := by
    unfold workload_start at hfail ⊢
    by_cases h1 : s.running.any (fun kv => kv.1 == wid) = true
    · simp [h1]
    · by_cases h2 : w.components.isEmpty = true
      · simp [h1, h2]
      · cases hres : resolveInterfaces providers w.hostInterfaces with
        | error e => simp [h1, h2, hres]
        | ok keys =>
          cases hreg : registerAll s.nextPoolId wid s.routes keys with
          | error e => simp [h1, h2, hres, hreg]
          | ok routes' => simp [h1, h2, hres, hreg] at hfail
  refine ⟨hstate, ?_, ?_⟩
  · intro hx pr hpr
    rw [hstate] at hpr
    exact hx pr hpr
  · intro hx e he
    rw [hstate] at he
    exact hx e he

theorem c3_start_rollback_witness :
    (workload_start [] initState "w1"
      ⟨[⟨2, 5⟩], [⟨"wasi", "logging", ["logging"], []⟩]⟩).2 = initState :=
  (c3_start_rollback [] initState "w1"
    ⟨[⟨2, 5⟩], [⟨"wasi", "logging", ["logging"], []⟩]⟩
    .UnresolvedInterface (by rfl)).1

theorem mkPool_available_length (size maxInv : Nat) :
    (mkPool size maxInv).available.length = size := by
  simp [mkPool]

theorem mkPool_counters_zero (size maxInv : Nat) :
    ∀ i ∈ (mkPool size maxInv).available, i.counter = 0 := by
  intro i hi
  simp only [mkPool] at hi
  rcases List.mem_map.mp hi with ⟨n, _, hn⟩
  rw [← hn]

theorem mem_mkPools (comps : List Component) (wid : String) :
    ∀ (base i : Nat) (hi : i < comps.length),
      (⟨base + i, wid,
        mkPool (comps.get ⟨i, hi⟩).poolSize
          (comps.get ⟨i, hi⟩).maxInvocations⟩ : PoolRec) ∈
        mkPools comps wid base := by
  induction comps with
  | nil => intro base i hi; exact absurd hi (by simp)
  | cons c cs ih =>
    intro base i hi
    cases i with
    | zero =>
      simp only [mkPools, Nat.add_zero]
      exact List.mem_cons_self _ _
    | succ j =>
      have hj : j < cs.length := Nat.lt_of_succ_lt_succ hi
      have := ih (base + 1) j hj
      have harith : base + (j + 1) = base + 1 + j := by omega
      simp only [mkPools]
      apply List.mem_cons_of_mem
      rw [harith]
      exact this

theorem mkPools_workloadId (comps : List Component) (wid : String) :
    ∀ (base : Nat), ∀ pr ∈ mkPools comps wid base, pr.workloadId = wid := by
  induction comps with
  | nil => intro base pr hpr; exact absurd hpr (by simp [mkPools])
  | cons c cs ih =>
    intro base pr hpr
    rcases List.mem_cons.mp hpr with hh | ht
    · rw [hh]
    · exact ih (base + 1) pr ht

/-- Case analysis on `workload_start`: it either fails and returns the
original state, or commits the new workload, its pools, and the registered
routes. -/
theorem workload_start_cases (providers : List Provider) (s : HostState)
    (wid : String) (w : Workload) :
    (∃ err, (workload_start providers s wid w).1 = .error err ∧
      (workload_start providers s wid w).2 = s) ∨
    (∃ keys routes',
      resolveInterfaces providers w.hostInterfaces = .ok keys ∧
      registerAll s.nextPoolId wid s.routes keys = .ok routes' ∧
      w.components.isEmpty = false ∧
      s.running.any (fun kv => kv.1 == wid) = false ∧
      workload_start providers s wid w =
        (.ok (), { running := (wid, w) :: s.running,
                   pools := s.pools ++ mkPools w.components wid s.nextPoolId,
                   routes := routes',
                   nextPoolId := s.nextPoolId + w.components.length })) := by
  by_cases h1 : s.running.any (fun kv => kv.1 == wid) = true
  · left
    refine ⟨.DuplicateWorkload, ?_, ?_⟩ <;> simp [workload_start, h1]
  · by_cases h2 : w.components.isEmpty = true
    · left
      refine ⟨.InvalidComponent, ?_, ?_⟩ <;> simp [workload_start, h1, h2]
    · cases hres : resolveInterfaces providers w.hostInterfaces with
      | error e =>
        left
        refine ⟨e, ?_, ?_⟩ <;> simp [workload_start, h1, h2, hres]
      | ok keys =>
        cases hreg : registerAll s.nextPoolId wid s.routes keys with
        | error e =>
          left
          refine ⟨e, ?_, ?_⟩ <;> simp [workload_start, h1, h2, hres, hreg]
        | ok routes' =>
          right
          refine ⟨keys, routes', rfl, hreg, ?_, ?_, ?_⟩
          · revert h2
            cases w.components.isEmpty <;> simp
          · revert h1
            cases s.running.any (fun kv => kv.1 == wid) <;> simp
          · simp [workload_start, h1, h2, hres, hreg]

theorem registerAll_mem {tgt : Nat} {wid : String} :
    ∀ {t : List RouteEntry} {keys : List (String × String)}
      {t' : List RouteEntry},
      registerAll tgt wid t keys = .ok t' →
      ∀ e ∈ t', e ∈ t ∨ (e.target = tgt ∧ e.workloadId = wid) := by
  intro t keys
  induction keys generalizing t with
  | nil =>
    intro t' h e he
    left
    have : t = t' := Except.ok.inj h
    rw [this]
    exact he
  | cons k rest ih =>
    intro t' h e he
    unfold registerAll at h
    cases hr : register t k.1 k.2 tgt wid with
    | error re =>
      rw [hr] at h
      exact absurd h (by simp)
    | ok tmid =>
      rw [hr] at h
      have htmid : tmid = t ++ [⟨k.1, k.2, tgt, wid⟩] := by
        unfold register at hr
        cases hef : entryFor t k.1 k.2 with
        | some x => rw [hef] at hr; exact absurd hr (by simp)
        | none => rw [hef] at hr; exact (Except.ok.inj hr).symm
      rcases ih h e he with hin | hnew
      · rw [htmid] at hin
        rcases List.mem_append.mp hin with hl | hr1
        · left; exact hl
        · right
          have : e = (⟨k.1, k.2, tgt, wid⟩ : RouteEntry) := by simpa using hr1
          rw [this]
          exact ⟨rfl, rfl⟩
      · right; exact hnew

/-- C6: when `workload_start` returns successfully, each declared component
with `pool_size = N` is backed by a pool holding exactly N ready (zero
invocation counter) instances, and after the matching `workload_stop`
returns successfully, no pool for that workload remains (zero instances
for every component of the workload). -/
theorem c6_pool_size_lifecycle (providers : List Provider) (s : HostState)
    (wid : String) (w : Workload)
    (hok : (workload_start providers s wid w).1 = .ok ()) :
    (∀ (i : Nat) (hi : i < w.components.length),
      (⟨s.nextPoolId + i, wid,
        mkPool (w.components.get ⟨i, hi⟩).poolSize
          (w.components.get ⟨i, hi⟩).maxInvocations⟩ : PoolRec) ∈
        (workload_start providers s wid w).2.pools ∧
      (mkPool (w.components.get ⟨i, hi⟩).poolSize
        (w.components.get ⟨i, hi⟩).maxInvocations).available.length =
        (w.components.get ⟨i, hi⟩).poolSize ∧
      (∀ inst ∈ (mkPool (w.components.get ⟨i, hi⟩).poolSize
        (w.components.get ⟨i, hi⟩).maxInvocations).available,
        inst.counter = 0)) ∧
    (workload_stop (workload_start providers s wid w).2 wid).1 = .ok () ∧
    (∀ pr ∈ (workload_stop (workload_start providers s wid w).2 wid).2.pools,
      pr.workloadId ≠ wid) := by
  have hrun : (workload_start providers s wid w).2.running =
      (wid, w) :: s.running ∧
      (workload_start providers s wid w).2.pools =
        s.pools ++ mkPools w.components wid s.nextPoolId := by
    rcases workload_start_cases providers s wid w with
      ⟨err, herr, _⟩ | ⟨keys, routes', _, _, _, _, heq⟩
    · rw [herr] at hok
      exact absurd hok (by simp)
    · rw [heq]
      exact ⟨rfl, rfl⟩
  refine ⟨?_, ?_, ?_⟩
  · intro i hi
    refine ⟨?_, mkPool_available_length _ _, mkPool_counters_zero _ _⟩
    rw [hrun.2]
    exact List.mem_append_right _ (mem_mkPools w.components wid s.nextPoolId i hi)
  · unfold workload_stop
    have hany : (workload_start providers s wid w).2.running.any
        (fun kv => kv.1 == wid) = true := by
      rw [hrun.1]
      simp [List.any_cons]
    rw [if_pos hany]
  · intro pr hpr
    unfold workload_stop at hpr
    have hany : (workload_start providers s wid w).2.running.any
        (fun kv => kv.1 == wid) = true := by
      rw [hrun.1]
      simp [List.any_cons]
    rw [if_pos hany] at hpr
    simp only [List.mem_filter, Bool.not_eq_true'] at hpr
    intro hcontra
    have := hpr.2
    rw [hcontra] at this
    simp at this

theorem c6_pool_size_lifecycle_witness :
    ((⟨0, "wa", mkPool 3 100⟩ : PoolRec) ∈
      (workload_start [] initState "wa"
        ⟨[⟨3, 100⟩], [⟨"wasi", "http", ["incoming-handler"],
          [("host", "localhost"), ("path", "/api")]⟩]⟩).2.pools) ∧
    (workload_stop (workload_start [] initState "wa"
        ⟨[⟨3, 100⟩], [⟨"wasi", "http", ["incoming-handler"],
          [("host", "localhost"), ("path", "/api")]⟩]⟩).2 "wa").1 = .ok () :=
  have h := c6_pool_size_lifecycle [] initState "wa"
    ⟨[⟨3, 100⟩], [⟨"wasi", "http", ["incoming-handler"],
      [("host", "localhost"), ("path", "/api")]⟩]⟩ (by rfl)
  ⟨(h.1 0 (by decide)).1, h.2.1⟩

theorem routeInv_step (providers : List Provider) (s : HostState) (op : Op)
    (hinv : routeInv s) : routeInv (step providers s op) := by
  cases op with
  | startOp wid w =>
    show routeInv (workload_start providers s wid w).2
    rcases workload_start_cases providers s wid w with
      ⟨err, _, hstate⟩ | ⟨keys, routes', hres, hreg, hne, hdup, heq⟩
    · rw [hstate]
      exact hinv
    · rw [heq]
      intro e he
      rcases registerAll_mem hreg e he with hold | hnew
      · rcases hinv e hold with ⟨pr, hprmem, hpid, hprw, ⟨w', hw'⟩, hready⟩
        exact ⟨pr, List.mem_append_left _ hprmem, hpid, hprw,
          ⟨w', List.mem_cons_of_mem _ hw'⟩, hready⟩
      · obtain ⟨c0, cs, hcomps⟩ : ∃ c0 cs, w.components = c0 :: cs := by
          cases hc : w.components with
          | nil => rw [hc] at hne; simp [List.isEmpty] at hne
          | cons a l => exact ⟨a, l, rfl⟩
        refine ⟨⟨s.nextPoolId, wid, mkPool c0.poolSize c0.maxInvocations⟩,
          ?_, ?_, ?_, ?_, ?_⟩
        · apply List.mem_append_right
          rw [hcomps]
          exact List.mem_cons_self _ _
        · exact hnew.1.symm
        · exact hnew.2.symm
        · refine ⟨w, ?_⟩
          rw [hnew.2]
          exact List.mem_cons_self _ _
        · exact mkPool_available_length _ _
  | stopOp wid =>
    show routeInv (workload_stop s wid).2
    unfold workload_stop
    by_cases hany : s.running.any (fun kv => kv.1 == wid) = true
    · rw [if_pos hany]
      intro e he
      simp only [List.mem_filter] at he
      have hew : e.workloadId ≠ wid := by
        have := he.2
        simpa using this
      rcases hinv e he.1 with ⟨pr, hprmem, hpid, hprw, ⟨w', hw'⟩, hready⟩
      refine ⟨pr, ?_, hpid, hprw, ⟨w', ?_⟩, hready⟩
      · simp only [List.mem_filter]
        exact ⟨hprmem, by simp [hprw, hew]⟩
      · simp only [List.mem_filter]
        exact ⟨hw', by simp [hew]⟩
    · rw [if_neg hany]
      exact hinv

/-- C2: in every state reachable from the initial state by any sequence of
`workload_start` and `workload_stop` operations, every live route entry
references a pool belonging to a workload currently recorded as running,
and that pool is fully ready (all `poolSize` instances available) — a
route is dispatch-visible only while its fully-ready target pool and
running workload exist, and disappears together with them. -/
theorem c2_route_pool_lockstep (providers : List Provider) (ops : List Op) :
    routeInv (runOps providers initState ops) := by
  suffices hstep : ∀ s, routeInv s → routeInv (runOps providers s ops) by
    apply hstep
    intro e he
    exact absurd he (List.not_mem_nil e)
  induction ops with
  | nil => intro s hs; exact hs
  | cons op rest ih =>
    intro s hs
    exact ih _ (routeInv_step providers s op hs)

theorem c2_route_pool_lockstep_witness :
    ∃ pr ∈ (runOps [] initState
      [Op.startOp "wa" ⟨[⟨1, 100⟩], [⟨"wasi", "http", ["incoming-handler"],
        [("host", "localhost"), ("path", "/api")]⟩]⟩]).pools,
      pr.pid = (⟨"localhost", "/api", 0, "wa"⟩ : RouteEntry).target ∧
      pr.workloadId = (⟨"localhost", "/api", 0, "wa"⟩ : RouteEntry).workloadId ∧
      (∃ w, ((⟨"localhost", "/api", 0, "wa"⟩ : RouteEntry).workloadId, w) ∈
        (runOps [] initState
          [Op.startOp "wa" ⟨[⟨1, 100⟩], [⟨"wasi", "http", ["incoming-handler"],
            [("host", "localhost"), ("path", "/api")]⟩]⟩]).running) ∧
      pr.pool.available.length = pr.pool.poolSize :=
  c2_route_pool_lockstep []
    [Op.startOp "wa" ⟨[⟨1, 100⟩], [⟨"wasi", "http", ["incoming-handler"],
      [("host", "localhost"), ("path", "/api")]⟩]⟩]
    ⟨"localhost", "/api", 0, "wa"⟩ (by decide)

/-- C10: when an HTTP ingress requirement's config supplies a `host` value
but omits the `path` key, `workload_start` succeeds and registers a
host-only route (empty path prefix): every request whose host equals the
configured host dispatches to that workload's pool regardless of its
request path. -/
theorem c10_host_only_route (providers : List Provider) (wid : String)
    (c : Component) (ifs : List String) (cfg : List (String × String))
    (h : String)
    (hhost : lookupConfig cfg "host" = some h)
    (hpath : lookupConfig cfg "path" = none) :
    workload_start providers initState wid ⟨[c], [⟨"wasi", "http", ifs, cfg⟩]⟩ =
      (.ok (), ⟨[(wid, ⟨[c], [⟨"wasi", "http", ifs, cfg⟩]⟩)],
        [⟨0, wid, mkPool c.poolSize c.maxInvocations⟩],
        [⟨h, "", 0, wid⟩], 1⟩) ∧
    (∀ rp : String, rp.data.head? = some '/' →
      dispatch [⟨h, "", 0, wid⟩] h rp = some 0) := by
  constructor
  · simp [workload_start, resolveInterfaces, isIngress, hhost, hpath,
      registerAll, register, entryFor, mkPools, initState, Except.map]
  · intro rp hrp
    obtain ⟨cs, hd⟩ : ∃ cs, rp.data = '/' :: cs := by
      cases hdata : rp.data with
      | nil => rw [hdata] at hrp; exact absurd hrp (by simp)
      | cons ch tl =>
        rw [hdata] at hrp
        simp only [List.head?_cons, Option.some.injEq] at hrp
        exact ⟨tl, by rw [hrp]⟩
    have hm : matchesEntry ⟨h, "", 0, wid⟩ h rp = true := by
      simp only [matchesEntry, pathMatches]
      rw [hd]
      simp [pathMatchesL]
    simp [dispatch, pickLongest, hm]

theorem c10_host_only_route_witness :
    dispatch [⟨"gemini-proxy", "", 0, "wg"⟩] "gemini-proxy" "/gemini-proxy" =
      some 0 :=
  (c10_host_only_route [] "wg" ⟨1, 100⟩ ["incoming-handler"]
    [("host", "gemini-proxy")] "gemini-proxy" (by rfl) (by rfl)).2
    "/gemini-proxy" (by rfl)

end Wash
